import Mathlib

/-!
Verification of the spreadsheet ingestion and normalization pipeline of the
projectReview repository (src/backend/data_manager.py), shallowly embedded in
Lean 4.  Python strings are modelled as Lean `String`s (operating on ASCII
content, which is all the pipeline's fixed vocabulary uses); `pandas` cell
values are modelled as `Option String` (`none` = NaN / missing); the MySQL
tables `projects`, `members` and `panel_assignments` are modelled as lists of
records threaded through the processing functions.
-/

/-! ## Python character/string primitives (ASCII semantics) -/

/-- Python `\s` (ASCII): space, tab, newline, carriage return, vertical tab, form feed. -/
def isSpaceChar (c : Char) : Bool :=
  c = ' ' || c = '\t' || c = '\n' || c = '\r' || c = '\x0b' || c = '\x0c'

/-- Python `\d` (ASCII). -/
def isDigitChar (c : Char) : Bool :=
  '0' ≤ c && c ≤ '9'

/-- ASCII letter. -/
def isAlphaChar (c : Char) : Bool :=
  ( 'a' ≤ c && c ≤ 'z') || ( 'A' ≤ c && c ≤ 'Z')

/-- Python `\w` (ASCII): letters, digits, underscore. -/
def isWordChar (c : Char) : Bool :=
  isAlphaChar c || isDigitChar c || c = '_'

/-- Python `str.strip()` on a char list: drop whitespace at both ends. -/
def stripList (l : List Char) : List Char :=
  ((l.dropWhile isSpaceChar).reverse.dropWhile isSpaceChar).reverse

/-- Python `str.strip()`. -/
def pyStrip (s : String) : String :=
  (stripList s.toList).asString

/-- Python `str.lower()` (ASCII). -/
def lowerStr (s : String) : String :=
  (s.toList.map Char.toLower).asString

/-- Python `str.upper()` (ASCII). -/
def upperStr (s : String) : String :=
  (s.toList.map Char.toUpper).asString

/-- Python slicing `s[:n]` (kernel-reducible `take`). -/
def takeStr (s : String) (n : Nat) : String :=
  (s.toList.take n).asString

/-- Python `s.startswith(pre)` (kernel-reducible). -/
def startsWithStr (s pre : String) : Bool :=
  pre.toList.isPrefixOf s.toList

/-- Collapse every run of `' '` produced by mapping separator characters to a
single space (used to embed `re.sub(pat, ' ', s)` for character-class
patterns).  Structural: a run `' ' :: ' ' :: rest` keeps one space. -/
def squeezeSpaces : List Char → List Char
  | [] => []
  | ' ' :: ' ' :: rest => squeezeSpaces ( ' ' :: rest)
  | c :: rest => c :: squeezeSpaces rest

/-- `re.sub(r"[_\-\s]+", " ", s)`: map each separator char to a space, then
collapse runs. -/
def collapseSep (l : List Char) : List Char :=
  squeezeSpaces (l.map (fun c => if c = '_' || c = '-' || isSpaceChar c then ' ' else c))

/-- `re.sub(r"\s+", " ", s)`. -/
def collapseWs (l : List Char) : List Char :=
  squeezeSpaces (l.map (fun c => if isSpaceChar c then ' ' else c))

/-- Python substring test `needle in hay` over char lists. -/
def containsSub (p : List Char) : List Char → Bool
  | [] => p.isPrefixOf []
  | c :: rest => p.isPrefixOf (c :: rest) || containsSub p rest

/-- `any(pattern in col_name for pattern in pats)`. -/
def anyPattern (pats : List String) (s : List Char) : Bool :=
  pats.any (fun p => containsSub p.toList s)

/-! ## Header Normalizer — `normalize_column_name` (data_manager.py lines 61-143) -/

/-- The cleaning prefix of `normalize_column_name`:
`str(column_name).strip().lower()`, then `re.sub(r'[_\-\s]+',' ')`,
`re.sub(r'[^\w\s]','')`, `re.sub(r'\s+',' ').strip()`. -/
def cleanColumnName (s : String) : List Char :=
  stripList (collapseWs
    ((collapseSep ((stripList s.toList).map Char.toLower)).filter
      (fun c => isWordChar c || isSpaceChar c)))

/-- `normalize_column_name` from data_manager.py.  `none` models the Python
`None` returned for an empty/NaN header; otherwise the first matching keyword
group wins and unmatched headers are returned unchanged. -/
def normalizeColumnName (columnName : String) : Option String :=
  if columnName = "" then none else
  let col := cleanColumnName columnName
  if anyPattern ["group no", "grp no", "group number", "group id", "grp id"] col then
    some "Group No."
  else if anyPattern ["roll no", "roll number", "rollno", "roll", "student id"] col then
    some "Roll No."
  else if anyPattern ["name of the group member", "name of group member", "group member name",
      "name of members", "member name", "student name", "name"] col
      && !(containsSub "guide".toList col) && !(containsSub "company".toList col)
      && !(containsSub "panel".toList col) then
    some "Name of the group member"
  else if anyPattern ["contact details", "contact", "phone", "mobile", "email", "contact info"] col then
    some "Contact details"
  else if anyPattern ["project domain", "projects domain", "domain", "field", "area"] col then
    some "Project Domain"
  else if anyPattern ["title of the project", "project title", "title", "final title",
      "project name", "title of project"] col then
    some "Title of the Project"
  else if anyPattern ["name of the sponsored company", "sponsored company", "sponsor company",
      "company name", "sponsoring company", "name of sponsored"] col then
    some "Name of the sponsored company "
  else if anyPattern ["name of the guide", "guide name", "guide", "supervisor",
      "mentor name", "faculty guide"] col then
    some "Name of the Guide"
  else if anyPattern ["track", "panel no", "panel number"] col then
    some "Track"
  else if anyPattern ["name of the panel", "panel name", "panel members", "panel professors",
      "evaluators", "panel faculty"] col then
    some "Name of the Panel"
  else if anyPattern ["group id", "groups", "group nos", "assigned groups"] col then
    some "Group ID"
  else if anyPattern ["location", "room", "venue", "place"] col then
    some "Location"
  else
    some columnName

/-- Claim C2 — counterexample.  The canonical header "Group ID" is not a fixed
point of `normalize_column_name`: the Group-No. keyword group is tested first
and contains the pattern "group id", so "Group ID" normalizes to "Group No.". -/
theorem c2_counterexample :
    normalizeColumnName "Group ID" = some "Group No." ∧ ("Group No." : String) ≠ "Group ID" := by
  constructor
  · rfl
  · decide

/-- Claim C2 (amended).  Every canonical header name of the fixed vocabulary,
taken as the exact string the normalizer returns (the sponsor-company canonical
carries a trailing space in the code), is a fixed point of
`normalize_column_name` — except "Group ID", which normalizes to "Group No."
because the Group-No. keyword group is matched first and contains "group id". -/
theorem c2_header_normalization_fixed_points :
    normalizeColumnName "Group No." = some "Group No." ∧
    normalizeColumnName "Roll No." = some "Roll No." ∧
    normalizeColumnName "Name of the group member" = some "Name of the group member" ∧
    normalizeColumnName "Contact details" = some "Contact details" ∧
    normalizeColumnName "Project Domain" = some "Project Domain" ∧
    normalizeColumnName "Title of the Project" = some "Title of the Project" ∧
    normalizeColumnName "Name of the sponsored company " = some "Name of the sponsored company " ∧
    normalizeColumnName "Name of the Guide" = some "Name of the Guide" ∧
    normalizeColumnName "Track" = some "Track" ∧
    normalizeColumnName "Name of the Panel" = some "Name of the Panel" ∧
    normalizeColumnName "Location" = some "Location" ∧
    normalizeColumnName "Group ID" = some "Group No." := by
  refine ⟨rfl, rfl, rfl, rfl, rfl, rfl, rfl, rfl, rfl, rfl, rfl, rfl⟩

/-! ## Name normalizer — `normalize_name` (data_manager.py lines 50-59) -/

/-- True when the next position is not a word character (a `\b` holds after a
word char that the previous characters ended with). -/
def noWordHead : List Char → Bool
  | [] => true
  | c :: _ => !isWordChar c

/-- `re.sub(r"\b(dr|prof|professor)\b", "", ...)`: scan tracking whether the
previous character was a word character (`pw`); a match needs `!pw` (the `\b`
before the word) and a non-word follower (the `\b` after, tried in the
alternation order of the regex: `dr`, `prof`, `professor`).  After a removal
the previous character of the remaining text is the last letter of the removed
word, a word character, so `pw` becomes true.  When no honorific is delimited
at the position, the head character is emitted and scanning continues at the
tail. -/
def remHon (pw : Bool) : List Char → List Char
  | [] => []
  | 'd' :: 'r' :: rest =>
    if !pw && noWordHead rest then remHon true rest
    else 'd' :: remHon (isWordChar 'd') ( 'r' :: rest)
  | 'p' :: 'r' :: 'o' :: 'f' :: 'e' :: 's' :: 's' :: 'o' :: 'r' :: rest =>
    if !pw && noWordHead rest then remHon true rest
    else 'p' :: remHon (isWordChar 'p') ( 'r' :: 'o' :: 'f' :: 'e' :: 's' :: 's' :: 'o' :: 'r' :: rest)
  | 'p' :: 'r' :: 'o' :: 'f' :: rest =>
    if !pw && noWordHead rest then remHon true rest
    else 'p' :: remHon (isWordChar 'p') ( 'r' :: 'o' :: 'f' :: rest)
  | c :: cs => c :: remHon (isWordChar c) cs

/-- `re.sub(r"\b[a-z]\b", "", ...)`: remove delimited single lowercase letters,
tracking the word-character status of the previous character. -/
def remSingle (pw : Bool) : List Char → List Char
  | [] => []
  | c :: cs =>
    if !pw && ( 'a' ≤ c && c ≤ 'z') && noWordHead cs then remSingle true cs
    else c :: remSingle (isWordChar c) cs

/-- `normalize_name` from data_manager.py: lowercase, newlines/carriage returns
to spaces, remove periods, strip honorifics `dr`/`prof`/`professor`, strip
single letters, collapse whitespace, strip. -/
def normalizeName (name : String) : String :=
  if name = "" then "" else
  let l1 := name.toList.map Char.toLower
  let l2 := l1.map (fun c => if c = '\n' || c = '\r' then ' ' else c)
  let l3 := l2.filter (fun c => c ≠ '.')
  let l4 := remHon false l3
  let l5 := remSingle false l4
  (stripList (collapseWs l5)).asString

/-! ## Relational data model (tables as lists of rows) -/

/-- A row of the `projects` table. -/
structure Project where
  group_id : String
  division : String
  project_domain : String
  project_title : String
  sponsor_company : String
  guide_name : String
  mentor_name : String
  mentor_email : String
  mentor_mobile : String
  evaluator1_name : String
  evaluator2_name : String
deriving DecidableEq

/-- A row of the `members` table. -/
structure Member where
  group_id : String
  roll_no : String
  student_name : String
  contact_details : String
deriving DecidableEq

/-- A row of the `panel_assignments` table.  `reviewer3` is inserted as SQL
NULL and never updated. -/
structure Panel where
  group_id : String
  track : Int
  panel_professors : String
  location : String
  guide : String
  reviewer1 : String
  reviewer2 : String
  reviewer3 : Option String
deriving DecidableEq

/-- The three tables cleared and rebuilt by a full reconciliation run. -/
structure DBState where
  projects : List Project
  members : List Member
  panels : List Panel
deriving DecidableEq

def emptyDB : DBState := ⟨[], [], []⟩

/-! ## Schedule Reconciler — `assign_evaluators_from_panel` (lines 304-333) -/

/-- One element of the `assignments` list built by
`assign_evaluators_from_panel`. -/
structure Assignment where
  group_id : String
  guide : String
  evaluator1 : String
  evaluator2 : String
deriving DecidableEq

/-- `assign_evaluators_from_panel`: the guide of each group is looked up in
`projects` (first row with the group id, as `fetchone` on the keyed table);
panel professors whose normalized name equals the normalized guide name are
filtered out; the first two survivors become the evaluators, with the
placeholder strings `"Default Eval 1"` / `"Default Eval 2"` when fewer
survive.  A panel list with fewer than two names is first replaced by three
default professor names. -/
def assignOneGroup (panel : List String) (projects : List Project) (g : String) : Assignment :=
  let guide := ((projects.find? (fun p => p.group_id = g)).map (fun p => p.guide_name)).getD ""
  let available := panel.filter (fun prof => normalizeName prof ≠ normalizeName guide)
  ⟨g, guide, available.headD "Default Eval 1", (available.drop 1).headD "Default Eval 2"⟩

/-- `assign_evaluators_from_panel`, the loop body factored into
`assignOneGroup` (`available[i] if len(available) > i else "Default Eval N"`
is `headD` of the `i`-th tail of the filtered list). -/
def assignEvaluatorsFromPanel (panelProfessors : List String) (groupIds : List String)
    (projects : List Project) : List Assignment :=
  let panel := if panelProfessors.isEmpty || panelProfessors.length < 2 then
      ["Default Prof 1", "Default Prof 2", "Default Prof 3"]
    else panelProfessors
  groupIds.map (assignOneGroup panel projects)

/-- Claim C3 — counterexample.  When every panel professor name-normalizes to
the guide's name, the filtered list is empty and the code falls back to the
placeholder `"Default Eval 1"` without checking it against the guide; for a
project whose guide is literally named "Default Eval 1", the assigned
evaluator1 name-normalizes identically to the guide, violating the claim. -/
theorem c3_counterexample :
    assignEvaluatorsFromPanel ["default eval 1", "DEFAULT EVAL 1"] ["BIA-01"]
        [⟨"BIA-01", "A", "", "", "", "Default Eval 1", "", "", "", "", ""⟩] =
      [⟨"BIA-01", "Default Eval 1", "Default Eval 1", "Default Eval 2"⟩] ∧
    normalizeName "Default Eval 1" = normalizeName "Default Eval 1" := by
  exact ⟨rfl, rfl⟩

/-- Claim C3 (amended).  Every evaluator drawn from the panel list is filtered
against the group's guide by `normalize_name` comparison, so an assigned
evaluator can name-normalize identically to the guide only when it is the
unchecked fallback placeholder: if evaluator1 normalizes like the guide it is
the literal string "Default Eval 1", and if evaluator2 normalizes like the
guide it is the literal string "Default Eval 2". -/
theorem c3_evaluator_guide_exclusion (panelProfessors groupIds : List String)
    (projects : List Project) (a : Assignment)
    (ha : a ∈ assignEvaluatorsFromPanel panelProfessors groupIds projects) :
    (normalizeName a.evaluator1 = normalizeName a.guide → a.evaluator1 = "Default Eval 1") ∧
    (normalizeName a.evaluator2 = normalizeName a.guide → a.evaluator2 = "Default Eval 2") := by
  unfold assignEvaluatorsFromPanel at ha
  simp only [List.mem_map] at ha
  obtain ⟨g, -, rfl⟩ := ha
  unfold assignOneGroup
  dsimp only
  generalize ((projects.find? (fun p => p.group_id = g)).map
      (fun p => p.guide_name)).getD "" = guide
  generalize hA : List.filter (fun prof => (decide (normalizeName prof ≠ normalizeName guide)))
      (if panelProfessors.isEmpty || panelProfessors.length < 2 then
        ["Default Prof 1", "Default Prof 2", "Default Prof 3"]
      else panelProfessors) = la
  have hne : ∀ x ∈ la, normalizeName x ≠ normalizeName guide := by
    intro x hx
    rw [← hA] at hx
    have := (List.mem_filter.mp hx).2
    simpa using this
  constructor
  · intro h1
    match la, hne with
    | [], _ => rfl
    | a1 :: rest, hne =>
      exact absurd h1 (hne a1 (List.mem_cons_self a1 rest))
  · intro h2
    match la, hne with
    | [], _ => rfl
    | [a1], _ => rfl
    | a1 :: b :: rest, hne =>
      exact absurd h2 (hne b (List.mem_cons_of_mem _ (List.mem_cons_self b rest)))

/-- Witness for `c3_evaluator_guide_exclusion` at a concrete input: panel
["Alice Smith", "Bob Jones"], one group with no stored project row. -/
theorem c3_evaluator_guide_exclusion_witness :
    (normalizeName "Alice Smith" = normalizeName "" → ("Alice Smith" : String) = "Default Eval 1") ∧
    (normalizeName "Bob Jones" = normalizeName "" → ("Bob Jones" : String) = "Default Eval 2") :=
  c3_evaluator_guide_exclusion ["Alice Smith", "Bob Jones"] ["BIA-01"] []
    ⟨"BIA-01", "", "Alice Smith", "Bob Jones"⟩ (by decide)

/-! ## Group-ID Extractor — `extract_all_group_ids` (data_manager.py lines 267-302) -/

/-- A match of the standard pattern `\b(BI[AB]-?\s*\d{1,2})\b`: the division
letter, the raw separator text matched by `-?\s*`, and the 1-2 digit sequence.
The matched token is `B I div sep digits`. -/
structure StdMatch where
  div : Char
  sep : List Char
  digits : List Char
deriving DecidableEq

/-- A match of `\b(BI[AB]\d{1,2})\b` or of `\b(BI[AB])\s+(\d{1,2})\b`: the
division letter and the 1-2 digit sequence. -/
structure GidMatch where
  div : Char
  digits : List Char
deriving DecidableEq

/-- Greedy `\d{1,2}` followed by `\b`: take two digits when the third
character is a non-word boundary; fall back to one digit only when the second
character is non-word (a digit there is a word character, so the regex
backtrack fails). -/
def parseDigits2 : List Char → Option (List Char)
  | [] => none
  | d1 :: rest1 =>
    if isDigitChar d1 then
      match rest1 with
      | [] => some [d1]
      | d2 :: rest2 =>
        if isDigitChar d2 then (if noWordHead rest2 then some [d1, d2] else none)
        else if !isWordChar d2 then some [d1] else none
    else none

/-- Attempt `BI[AB]-?\s*\d{1,2}\b` at the head of the list (the leading `\b`
is checked by the scanner). -/
def parseStd : List Char → Option StdMatch
  | b :: i :: d :: rest =>
    if b = 'B' && i = 'I' && (d = 'A' || d = 'B') then
      match rest with
      | '-' :: r2 =>
        (parseDigits2 (r2.dropWhile isSpaceChar)).map
          (fun ds => ⟨d, '-' :: r2.takeWhile isSpaceChar, ds⟩)
      | _ =>
        (parseDigits2 (rest.dropWhile isSpaceChar)).map
          (fun ds => ⟨d, rest.takeWhile isSpaceChar, ds⟩)
    else none
  | _ => none

/-- Attempt `BI[AB]\d{1,2}\b` at the head of the list. -/
def parseNoHyp : List Char → Option GidMatch
  | b :: i :: d :: rest =>
    if b = 'B' && i = 'I' && (d = 'A' || d = 'B') then
      (parseDigits2 rest).map (fun ds => ⟨d, ds⟩)
    else none
  | _ => none

/-- Attempt `BI[AB]\s+\d{1,2}\b` at the head of the list. -/
def parseSpace : List Char → Option GidMatch
  | b :: i :: d :: rest =>
    if b = 'B' && i = 'I' && (d = 'A' || d = 'B') then
      if (rest.takeWhile isSpaceChar).isEmpty then none
      else (parseDigits2 (rest.dropWhile isSpaceChar)).map (fun ds => ⟨d, ds⟩)
    else none
  | _ => none

/-- `re.findall` for the standard pattern: attempt a match at every position
whose previous character is not a word character (`pw` tracks this; the
pattern starts with the word character `B`, so `\b` holds exactly when `!pw`).
Scanning position by position coincides with `findall`'s non-overlapping scan
for these patterns: no match can start strictly inside another match, because
every character after the first inside a match token is either preceded by a
word character or is not `B`. -/
def findStd (pw : Bool) : List Char → List StdMatch
  | [] => []
  | c :: cs =>
    (if !pw then
      match parseStd (c :: cs) with
      | some m => [m]
      | none => []
    else []) ++ findStd (isWordChar c) cs

/-- `re.findall` for the no-hyphen pattern (same position-by-position scan). -/
def findNoHyp (pw : Bool) : List Char → List GidMatch
  | [] => []
  | c :: cs =>
    (if !pw then
      match parseNoHyp (c :: cs) with
      | some m => [m]
      | none => []
    else []) ++ findNoHyp (isWordChar c) cs

/-- `re.findall` for the space pattern (same position-by-position scan). -/
def findSpace (pw : Bool) : List Char → List GidMatch
  | [] => []
  | c :: cs =>
    (if !pw then
      match parseSpace (c :: cs) with
      | some m => [m]
      | none => []
    else []) ++ findSpace (isWordChar c) cs

/-- Python `f"{s[:4]}0{s[4:]}"`. -/
def padAt4 (l : List Char) : List Char :=
  l.take 4 ++ '0' :: l.drop 4

/-- Standard branch: `re.sub(r'(BI[AB])[-\s]*(\d{1,2})', r'\1-\2', match)`
rewrites the matched token `B I div sep digits` to `B I div - digits`; a
5-character result (one digit) gets a zero inserted before the digit. -/
def fmtStd (m : StdMatch) : List Char :=
  let clean := 'B' :: 'I' :: m.div :: '-' :: m.digits
  if clean.length = 5 then padAt4 clean else clean

/-- No-hyphen branch: insert a hyphen after the division letter, zero-padding
a single digit (lengths 5 and 4 of the raw token `B I div digits`). -/
def fmtNoHyp (m : GidMatch) : List Char :=
  let t := 'B' :: 'I' :: m.div :: m.digits
  if t.length = 5 then t.take 3 ++ '-' :: t.drop 3
  else if t.length = 4 then t.take 3 ++ '-' :: '0' :: t.drop 3
  else t

/-- Python `num.zfill(2)` for a 1-2 digit string. -/
def zfill2 (ds : List Char) : List Char :=
  if ds.length = 1 then '0' :: ds else ds

/-- Space branch: `f"{prefix}-{num.zfill(2)}"`. -/
def fmtSpace (m : GidMatch) : List Char :=
  'B' :: 'I' :: m.div :: '-' :: zfill2 m.digits

/-- Lexicographic code-point comparison of char lists (Python `<` on `str`). -/
def ltCharList : List Char → List Char → Bool
  | [], [] => false
  | [], _ :: _ => true
  | _ :: _, [] => false
  | a :: as2, b :: bs => if a < b then true else if b < a then false else ltCharList as2 bs

/-- Python `<` on strings. -/
def ltStr (a b : String) : Bool :=
  ltCharList a.toList b.toList

/-- Insert into a strictly ascending list, dropping duplicates. -/
def insSorted (s : String) : List String → List String
  | [] => [s]
  | t :: ts => if ltStr s t then s :: t :: ts else if s = t then t :: ts else t :: insSorted s ts

/-- Python `sorted(list(set(l)))`: a strictly ascending list of the distinct
elements. -/
def sortDedup (l : List String) : List String :=
  l.foldl (fun acc s => insSorted s acc) []

/-- The per-cell body of `extract_all_group_ids`:
`str(cell_value).upper().strip()`, then the three pattern families, each
match canonicalized by its branch. -/
def extractCell (cell : String) : List String :=
  let cs := stripList (cell.toList.map Char.toUpper)
  ((findStd false cs).map (fun m => (fmtStd m).asString))
    ++ ((findNoHyp false cs).map (fun m => (fmtNoHyp m).asString))
    ++ ((findSpace false cs).map (fun m => (fmtSpace m).asString))

/-- `extract_all_group_ids`: falsy cells are skipped, matches of all cells are
accumulated into a set, and the set is returned as a sorted list. -/
def extractAllGroupIds (rowData : List String) : List String :=
  sortDedup (rowData.foldl (fun acc cell => if cell = "" then acc else acc ++ extractCell cell) [])

/-- The canonical group-identifier shape `BI[AB]-NN`. -/
def isCanonicalGroupId (s : String) : Bool :=
  match s.toList with
  | [b, i, d, h, x, y] =>
    b = 'B' && i = 'I' && (d = 'A' || d = 'B') && h = '-' && isDigitChar x && isDigitChar y
  | _ => false

/-! ### Ordering facts for the sorted-set output -/

theorem ltCharList_irrefl : ∀ (a : List Char), ltCharList a a = false := by
  intro a
  induction a with
  | nil => rfl
  | cons c cs ih => simp [ltCharList, ih]

theorem ltCharList_trans : ∀ {a b c : List Char},
    ltCharList a b = true → ltCharList b c = true → ltCharList a c = true := by
  intro a
  induction a with
  | nil =>
    intro b c hab hbc
    cases b with
    | nil => simp [ltCharList] at hab
    | cons bh bt =>
      cases c with
      | nil => simp [ltCharList] at hbc
      | cons ch ct => simp [ltCharList]
  | cons ah at2 ih =>
    intro b c hab hbc
    cases b with
    | nil => simp [ltCharList] at hab
    | cons bh bt =>
      cases c with
      | nil => simp [ltCharList] at hbc
      | cons ch ct =>
        simp only [ltCharList] at hab hbc ⊢
        rcases lt_trichotomy ah bh with h1 | h1 | h1
        · rcases lt_trichotomy bh ch with h2 | h2 | h2
          · rw [if_pos (lt_trans h1 h2)]
          · subst h2; rw [if_pos h1]
          · rw [if_neg (lt_asymm h2), if_pos h2] at hbc
            exact absurd hbc (by simp)
        · subst h1
          rw [if_neg (lt_irrefl ah), if_neg (lt_irrefl ah)] at hab
          rcases lt_trichotomy ah ch with h2 | h2 | h2
          · rw [if_pos h2]
          · subst h2
            rw [if_neg (lt_irrefl ah), if_neg (lt_irrefl ah)] at hbc ⊢
            exact ih hab hbc
          · rw [if_neg (lt_asymm h2), if_pos h2] at hbc
            exact absurd hbc (by simp)
        · rw [if_neg (lt_asymm h1), if_pos h1] at hab
          exact absurd hab (by simp)

theorem ltCharList_conn : ∀ {a b : List Char},
    ltCharList a b = false → a ≠ b → ltCharList b a = true := by
  intro a
  induction a with
  | nil =>
    intro b hab hne
    cases b with
    | nil => exact absurd rfl hne
    | cons bh bt => simp [ltCharList] at hab
  | cons ah at2 ih =>
    intro b hab hne
    cases b with
    | nil => simp [ltCharList]
    | cons bh bt =>
      simp only [ltCharList] at hab ⊢
      rcases lt_trichotomy ah bh with h1 | h1 | h1
      · simp [h1] at hab
      · subst h1
        simp only [lt_irrefl, if_false, if_neg (lt_irrefl ah)] at hab ⊢
        exact ih hab (by intro he; exact hne (by rw [he]))
      · simp [h1, not_lt_of_gt h1]

theorem ltStr_irrefl (a : String) : ltStr a a = false :=
  ltCharList_irrefl a.toList

theorem ltStr_trans {a b c : String} (h1 : ltStr a b = true) (h2 : ltStr b c = true) :
    ltStr a c = true :=
  ltCharList_trans h1 h2

theorem ltStr_conn {a b : String} (h1 : ltStr a b = false) (h2 : a ≠ b) :
    ltStr b a = true := by
  refine ltCharList_conn h1 ?_
  intro he
  apply h2
  cases a with
  | mk da =>
    cases b with
    | mk db =>
      have : da = db := he
      rw [this]

theorem mem_insSorted {x s : String} {l : List String} (h : x ∈ insSorted s l) :
    x = s ∨ x ∈ l := by
  induction l with
  | nil => simpa [insSorted] using h
  | cons t ts ih =>
    simp only [insSorted] at h
    split at h
    · rcases List.mem_cons.mp h with h1 | h1
      · exact Or.inl h1
      · exact Or.inr h1
    · split at h
      · exact Or.inr h
      · rcases List.mem_cons.mp h with h1 | h1
        · exact Or.inr (List.mem_cons.mpr (Or.inl h1))
        · rcases ih h1 with h2 | h2
          · exact Or.inl h2
          · exact Or.inr (List.mem_cons.mpr (Or.inr h2))

theorem pairwise_insSorted {s : String} {l : List String}
    (h : List.Pairwise (fun a b => ltStr a b = true) l) :
    List.Pairwise (fun a b => ltStr a b = true) (insSorted s l) := by
  induction l with
  | nil => simp [insSorted]
  | cons t ts ih =>
    rcases List.pairwise_cons.mp h with ⟨ht, hts⟩
    simp only [insSorted]
    split
    · next hlt =>
      refine List.pairwise_cons.mpr ⟨?_, h⟩
      intro u hu
      rcases List.mem_cons.mp hu with h1 | h1
      · rw [h1]; exact hlt
      · exact ltStr_trans hlt (ht u h1)
    · split
      · exact h
      · next hnlt hne =>
        refine List.pairwise_cons.mpr ⟨?_, ih hts⟩
        intro u hu
        rcases mem_insSorted hu with h1 | h1
        · rw [h1]
          have hst : ltStr s t = false := by
            cases hb : ltStr s t
            · rfl
            · exact absurd hb hnlt
          exact ltStr_conn hst hne
        · exact ht u h1

theorem pairwise_sortDedup (l : List String) :
    List.Pairwise (fun a b => ltStr a b = true) (sortDedup l) := by
  have aux : ∀ (l2 acc : List String), List.Pairwise (fun a b => ltStr a b = true) acc →
      List.Pairwise (fun a b => ltStr a b = true)
        (l2.foldl (fun acc s => insSorted s acc) acc) := by
    intro l2
    induction l2 with
    | nil => intro acc h; exact h
    | cons s rest ih => intro acc h; exact ih _ (pairwise_insSorted h)
  exact aux l [] (by simp)

theorem nodup_sortDedup (l : List String) : (sortDedup l).Nodup := by
  refine (pairwise_sortDedup l).imp ?_
  intro a b hab
  intro he
  rw [he] at hab
  rw [ltStr_irrefl b] at hab
  exact Bool.false_ne_true hab

theorem mem_sortDedup {x : String} {l : List String} (h : x ∈ sortDedup l) : x ∈ l := by
  have aux : ∀ (l2 acc : List String), x ∈ l2.foldl (fun acc s => insSorted s acc) acc →
      x ∈ acc ∨ x ∈ l2 := by
    intro l2
    induction l2 with
    | nil => intro acc h2; exact Or.inl h2
    | cons s rest ih =>
      intro acc h2
      rcases ih _ h2 with h3 | h3
      · rcases mem_insSorted h3 with h4 | h4
        · exact Or.inr (List.mem_cons.mpr (Or.inl h4))
        · exact Or.inl h4
      · exact Or.inr (List.mem_cons.mpr (Or.inr h3))
  rcases aux l [] h with h2 | h2
  · exact absurd h2 (List.not_mem_nil x)
  · exact h2


/-! ### Canonicality of the extractor output -/

theorem parseDigits2_ok : ∀ {l ds : List Char}, parseDigits2 l = some ds →
    (ds.length = 1 ∨ ds.length = 2) ∧ ∀ c ∈ ds, isDigitChar c = true := by
  intro l ds h
  cases l with
  | nil => simp [parseDigits2] at h
  | cons d1 rest1 =>
    cases rest1 with
    | nil =>
      simp only [parseDigits2] at h
      split at h
      · next hd1 =>
        simp only [Option.some.injEq] at h
        subst h
        refine ⟨Or.inl rfl, ?_⟩
        intro c hc
        simp only [List.mem_singleton] at hc
        subst hc
        exact hd1
      · simp at h
    | cons d2 rest2 =>
      simp only [parseDigits2] at h
      split at h
      · next hd1 =>
        split at h
        · next hd2 =>
          split at h
          · simp only [Option.some.injEq] at h
            subst h
            refine ⟨Or.inr rfl, ?_⟩
            intro c hc
            rcases List.mem_cons.mp hc with h1 | h1
            · subst h1; exact hd1
            · simp only [List.mem_singleton] at h1
              subst h1
              exact hd2
          · simp at h
        · split at h
          · simp only [Option.some.injEq] at h
            subst h
            refine ⟨Or.inl rfl, ?_⟩
            intro c hc
            simp only [List.mem_singleton] at hc
            subst hc
            exact hd1
          · simp at h
      · simp at h

theorem parseStd_ok : ∀ {l : List Char} {m : StdMatch}, parseStd l = some m →
    (m.div = 'A' ∨ m.div = 'B') ∧ (m.digits.length = 1 ∨ m.digits.length = 2) ∧
    ∀ c ∈ m.digits, isDigitChar c = true := by
  intro l m h
  cases l with
  | nil => simp [parseStd] at h
  | cons b l1 =>
    cases l1 with
    | nil => simp [parseStd] at h
    | cons i l2 =>
      cases l2 with
      | nil => simp [parseStd] at h
      | cons d rest =>
        simp only [parseStd] at h
        split at h
        · next hcond =>
          simp only [Bool.and_eq_true, Bool.or_eq_true, decide_eq_true_eq] at hcond
          have hd := hcond.2
          split at h
          · rcases Option.map_eq_some'.mp h with ⟨ds, hds, heq⟩
            subst heq
            exact ⟨hd, parseDigits2_ok hds⟩
          · rcases Option.map_eq_some'.mp h with ⟨ds, hds, heq⟩
            subst heq
            exact ⟨hd, parseDigits2_ok hds⟩
        · simp at h

theorem parseNoHyp_ok : ∀ {l : List Char} {m : GidMatch}, parseNoHyp l = some m →
    (m.div = 'A' ∨ m.div = 'B') ∧ (m.digits.length = 1 ∨ m.digits.length = 2) ∧
    ∀ c ∈ m.digits, isDigitChar c = true := by
  intro l m h
  cases l with
  | nil => simp [parseNoHyp] at h
  | cons b l1 =>
    cases l1 with
    | nil => simp [parseNoHyp] at h
    | cons i l2 =>
      cases l2 with
      | nil => simp [parseNoHyp] at h
      | cons d rest =>
        simp only [parseNoHyp] at h
        split at h
        · next hcond =>
          simp only [Bool.and_eq_true, Bool.or_eq_true, decide_eq_true_eq] at hcond
          rcases Option.map_eq_some'.mp h with ⟨ds, hds, heq⟩
          subst heq
          exact ⟨hcond.2, parseDigits2_ok hds⟩
        · simp at h

theorem parseSpace_ok : ∀ {l : List Char} {m : GidMatch}, parseSpace l = some m →
    (m.div = 'A' ∨ m.div = 'B') ∧ (m.digits.length = 1 ∨ m.digits.length = 2) ∧
    ∀ c ∈ m.digits, isDigitChar c = true := by
  intro l m h
  cases l with
  | nil => simp [parseSpace] at h
  | cons b l1 =>
    cases l1 with
    | nil => simp [parseSpace] at h
    | cons i l2 =>
      cases l2 with
      | nil => simp [parseSpace] at h
      | cons d rest =>
        simp only [parseSpace] at h
        split at h
        · next hcond =>
          simp only [Bool.and_eq_true, Bool.or_eq_true, decide_eq_true_eq] at hcond
          split at h
          · simp at h
          · rcases Option.map_eq_some'.mp h with ⟨ds, hds, heq⟩
            subst heq
            exact ⟨hcond.2, parseDigits2_ok hds⟩
        · simp at h

theorem findStd_ok : ∀ {l : List Char} {pw : Bool} {m : StdMatch}, m ∈ findStd pw l →
    (m.div = 'A' ∨ m.div = 'B') ∧ (m.digits.length = 1 ∨ m.digits.length = 2) ∧
    ∀ c ∈ m.digits, isDigitChar c = true := by
  intro l
  induction l with
  | nil => intro pw m h; simp [findStd] at h
  | cons c cs ih =>
    intro pw m h
    simp only [findStd] at h
    rcases List.mem_append.mp h with h1 | h1
    · split at h1
      · split at h1
        · next heq =>
          simp only [List.mem_singleton] at h1
          subst h1
          exact parseStd_ok heq
        · simp at h1
      · simp at h1
    · exact ih h1

theorem findNoHyp_ok : ∀ {l : List Char} {pw : Bool} {m : GidMatch}, m ∈ findNoHyp pw l →
    (m.div = 'A' ∨ m.div = 'B') ∧ (m.digits.length = 1 ∨ m.digits.length = 2) ∧
    ∀ c ∈ m.digits, isDigitChar c = true := by
  intro l
  induction l with
  | nil => intro pw m h; simp [findNoHyp] at h
  | cons c cs ih =>
    intro pw m h
    simp only [findNoHyp] at h
    rcases List.mem_append.mp h with h1 | h1
    · split at h1
      · split at h1
        · next heq =>
          simp only [List.mem_singleton] at h1
          subst h1
          exact parseNoHyp_ok heq
        · simp at h1
      · simp at h1
    · exact ih h1

theorem findSpace_ok : ∀ {l : List Char} {pw : Bool} {m : GidMatch}, m ∈ findSpace pw l →
    (m.div = 'A' ∨ m.div = 'B') ∧ (m.digits.length = 1 ∨ m.digits.length = 2) ∧
    ∀ c ∈ m.digits, isDigitChar c = true := by
  intro l
  induction l with
  | nil => intro pw m h; simp [findSpace] at h
  | cons c cs ih =>
    intro pw m h
    simp only [findSpace] at h
    rcases List.mem_append.mp h with h1 | h1
    · split at h1
      · split at h1
        · next heq =>
          simp only [List.mem_singleton] at h1
          subst h1
          exact parseSpace_ok heq
        · simp at h1
      · simp at h1
    · exact ih h1

theorem asString_data (l : List Char) : (List.asString l).data = l := rfl

theorem fmtStd_canonical {m : StdMatch} (hdiv : m.div = 'A' ∨ m.div = 'B')
    (hlen : m.digits.length = 1 ∨ m.digits.length = 2)
    (hdig : ∀ c ∈ m.digits, isDigitChar c = true) :
    isCanonicalGroupId (fmtStd m).asString = true := by
  obtain ⟨dv, sep, ds⟩ := m
  simp only at hdiv hlen hdig
  cases ds with
  | nil => simp at hlen
  | cons d1 tl =>
    cases tl with
    | nil =>
      have h1 : isDigitChar d1 = true := hdig d1 (by simp)
      simp only [fmtStd, padAt4, isCanonicalGroupId, String.toList, asString_data]
      rcases hdiv with h | h <;> subst h <;> simp_all [isDigitChar]
    | cons d2 tl2 =>
      cases tl2 with
      | nil =>
        have h1 : isDigitChar d1 = true := hdig d1 (by simp)
        have h2 : isDigitChar d2 = true := hdig d2 (by simp)
        simp only [fmtStd, padAt4, isCanonicalGroupId, String.toList, asString_data]
        rcases hdiv with h | h <;> subst h <;> simp [h1, h2]
      | cons d3 tl3 => simp at hlen

theorem fmtNoHyp_canonical {m : GidMatch} (hdiv : m.div = 'A' ∨ m.div = 'B')
    (hlen : m.digits.length = 1 ∨ m.digits.length = 2)
    (hdig : ∀ c ∈ m.digits, isDigitChar c = true) :
    isCanonicalGroupId (fmtNoHyp m).asString = true := by
  obtain ⟨dv, ds⟩ := m
  simp only at hdiv hlen hdig
  cases ds with
  | nil => simp at hlen
  | cons d1 tl =>
    cases tl with
    | nil =>
      have h1 : isDigitChar d1 = true := hdig d1 (by simp)
      simp only [fmtNoHyp, isCanonicalGroupId, String.toList, asString_data]
      rcases hdiv with h | h <;> subst h <;> simp_all [isDigitChar]
    | cons d2 tl2 =>
      cases tl2 with
      | nil =>
        have h1 : isDigitChar d1 = true := hdig d1 (by simp)
        have h2 : isDigitChar d2 = true := hdig d2 (by simp)
        simp only [fmtNoHyp, isCanonicalGroupId, String.toList, asString_data]
        rcases hdiv with h | h <;> subst h <;> simp [h1, h2]
      | cons d3 tl3 => simp at hlen

theorem fmtSpace_canonical {m : GidMatch} (hdiv : m.div = 'A' ∨ m.div = 'B')
    (hlen : m.digits.length = 1 ∨ m.digits.length = 2)
    (hdig : ∀ c ∈ m.digits, isDigitChar c = true) :
    isCanonicalGroupId (fmtSpace m).asString = true := by
  obtain ⟨dv, ds⟩ := m
  simp only at hdiv hlen hdig
  cases ds with
  | nil => simp at hlen
  | cons d1 tl =>
    cases tl with
    | nil =>
      have h1 : isDigitChar d1 = true := hdig d1 (by simp)
      simp only [fmtSpace, zfill2, isCanonicalGroupId, String.toList, asString_data]
      rcases hdiv with h | h <;> subst h <;> simp_all [isDigitChar]
    | cons d2 tl2 =>
      cases tl2 with
      | nil =>
        have h1 : isDigitChar d1 = true := hdig d1 (by simp)
        have h2 : isDigitChar d2 = true := hdig d2 (by simp)
        simp only [fmtSpace, zfill2, isCanonicalGroupId, String.toList, asString_data]
        rcases hdiv with h | h <;> subst h <;> simp [h1, h2]
      | cons d3 tl3 => simp at hlen

theorem extractCell_canonical {cell : String} {g : String} (h : g ∈ extractCell cell) :
    isCanonicalGroupId g = true := by
  unfold extractCell at h
  rcases List.mem_append.mp h with h1 | h1
  · rcases List.mem_append.mp h1 with h2 | h2
    · rcases List.mem_map.mp h2 with ⟨m, hm, rfl⟩
      obtain ⟨ha, hb, hc⟩ := findStd_ok hm
      exact fmtStd_canonical ha hb hc
    · rcases List.mem_map.mp h2 with ⟨m, hm, rfl⟩
      obtain ⟨ha, hb, hc⟩ := findNoHyp_ok hm
      exact fmtNoHyp_canonical ha hb hc
  · rcases List.mem_map.mp h1 with ⟨m, hm, rfl⟩
    obtain ⟨ha, hb, hc⟩ := findSpace_ok hm
    exact fmtSpace_canonical ha hb hc

theorem mem_collectCells : ∀ (row acc : List String) (g : String),
    g ∈ row.foldl (fun acc cell => if cell = "" then acc else acc ++ extractCell cell) acc →
    g ∈ acc ∨ ∃ cell ∈ row, g ∈ extractCell cell := by
  intro row
  induction row with
  | nil => intro acc g h; exact Or.inl h
  | cons cell rest ih =>
    intro acc g h
    simp only [List.foldl_cons] at h
    rcases ih _ g h with h1 | h1
    · split at h1
      · exact Or.inl h1
      · rcases List.mem_append.mp h1 with h2 | h2
        · exact Or.inl h2
        · exact Or.inr ⟨cell, List.mem_cons_self cell rest, h2⟩
    · rcases h1 with ⟨c2, hc2, hg⟩
      exact Or.inr ⟨c2, List.mem_cons_of_mem _ hc2, hg⟩

/-- Claim C5.  Each of the surface forms "BIA-1", "BIA01", "BIA 1" in a cell
extracts to exactly the singleton ["BIA-01"]; and in general every identifier
returned by `extract_all_group_ids` is canonical of shape `BI[AB]-NN`, the
result is strictly sorted in Python string order, and contains no duplicates. -/
theorem c5_extract_group_ids_canonical :
    extractAllGroupIds ["BIA-1"] = ["BIA-01"] ∧
    extractAllGroupIds ["BIA01"] = ["BIA-01"] ∧
    extractAllGroupIds ["BIA 1"] = ["BIA-01"] ∧
    (∀ rowData g, g ∈ extractAllGroupIds rowData → isCanonicalGroupId g = true) ∧
    (∀ rowData, List.Pairwise (fun a b => ltStr a b = true) (extractAllGroupIds rowData)) ∧
    (∀ rowData, (extractAllGroupIds rowData).Nodup) := by
  refine ⟨rfl, rfl, rfl, ?_, ?_, ?_⟩
  · intro rowData g h
    unfold extractAllGroupIds at h
    have h2 := mem_sortDedup h
    rcases mem_collectCells rowData [] g h2 with h3 | h3
    · exact absurd h3 (List.not_mem_nil g)
    · rcases h3 with ⟨cell, -, hg⟩
      exact extractCell_canonical hg
  · intro rowData
    exact pairwise_sortDedup _
  · intro rowData
    exact nodup_sortDedup _

/-- Witness for the quantified parts of `c5_extract_group_ids_canonical` at
the concrete row ["BIA-1"]. -/
theorem c5_extract_group_ids_canonical_witness :
    isCanonicalGroupId "BIA-01" = true :=
  c5_extract_group_ids_canonical.2.2.2.1 ["BIA-1"] "BIA-01" (by decide)

/-! ## Roster Ingestor — `process_division_enhanced_with_normalization`
(data_manager.py lines 335-446).  A division row is the record of cells the
walk reads through the normalized column names; `none` models a NaN cell or a
missing column (both give the empty-string / not-present behavior of
`row.get(...)` plus `pd.notnull`). -/

structure DivRow where
  groupNo : Option String
  rollNo : Option String
  studentName : Option String
  contact : Option String
  domain : Option String
  title : Option String
  sponsor : Option String
  guide : Option String
deriving DecidableEq

/-- `pd.notnull(v) and str(v).strip()`: the cell exists and strips nonempty. -/
def cellPresent (o : Option String) : Bool :=
  match o with
  | none => false
  | some s => pyStrip s ≠ ""

/-- `str(v).strip()[:n] if pd.notnull(v) else ""`. -/
def fieldStr (o : Option String) (n : Nat) : String :=
  match o with
  | none => ""
  | some s => takeStr (pyStrip s) n

/-- `str(v).strip() if pd.notnull(v) else ""` (no truncation). -/
def fieldStrAll (o : Option String) : String :=
  match o with
  | none => ""
  | some s => pyStrip s

/-- The group-id normalization block of the roster walk, kept faithful to the
source: any id starting with "BI" passes through unchanged, so the
`BIA`/`BIB` hyphen-insertion branch below it is unreachable. -/
def normalizeRosterGroupId (g : String) : String :=
  if startsWithStr g "BI" then g
  else if (startsWithStr g "BIA" || startsWithStr g "BIB")
      && !(g.toList.contains '-') && 5 ≤ g.toList.length then
    (g.toList.take 3 ++ '-' :: g.toList.drop 3).asString
  else g

/-- `INSERT IGNORE INTO projects` (key `group_id`). -/
def insertIgnoreProject (ps : List Project) (p : Project) : List Project :=
  if ps.any (fun q => q.group_id = p.group_id) then ps else ps ++ [p]

/-- `INSERT IGNORE INTO members` (key `(group_id, roll_no)`). -/
def insertIgnoreMember (ms : List Member) (m : Member) : List Member :=
  if ms.any (fun q => q.group_id = m.group_id && q.roll_no = m.roll_no) then ms
  else ms ++ [m]

/-- The walk state of the roster loop: the database, the division label, the
`group_id` carry-forward variable (initially `None`), the `processed_groups`
list and the `processed_members` counter. -/
structure DivState where
  db : DBState
  division : String
  group : Option String
  groups : List String
  memberCount : Nat
deriving DecidableEq

/-- One iteration of the roster loop: on a non-blank Group-No. cell set the
carry-forward group, normalize it, and insert-ignore a Project from the same
row's fields; then, when a group is current and both roll number and student
name are non-blank, insert-ignore a Member under the current group. -/
def stepDiv (st : DivState) (r : DivRow) : DivState :=
  let st1 :=
    if cellPresent r.groupNo then
      let g := normalizeRosterGroupId (pyStrip (r.groupNo.getD ""))
      let proj : Project :=
        ⟨g, st.division, fieldStr r.domain 255, fieldStr r.title 500,
          fieldStr r.sponsor 255, fieldStr r.guide 100, "", "", "", "", ""⟩
      { st with
        db := { st.db with projects := insertIgnoreProject st.db.projects proj },
        group := some g,
        groups := if g ∈ st.groups then st.groups else st.groups ++ [g] }
    else st
  match st1.group with
  | none => st1
  | some g =>
    if cellPresent r.rollNo && cellPresent r.studentName then
      let m : Member :=
        ⟨g, pyStrip (r.rollNo.getD ""), takeStr (pyStrip (r.studentName.getD "")) 100,
          fieldStrAll r.contact⟩
      { st1 with
        db := { st1.db with members := insertIgnoreMember st1.db.members m },
        memberCount := st1.memberCount + 1 }
    else st1

/-- `process_division_enhanced_with_normalization`: fold the rows and return
the updated database with `(len(processed_groups), processed_members)`. -/
def processDivision (s : DBState) (rows : List DivRow) (division : String) :
    DBState × Nat × Nat :=
  let final := rows.foldl stepDiv ⟨s, division, none, [], 0⟩
  (final.db, final.groups.length, final.memberCount)

/-- Claim C1 — evaluation at the failing input.  For the Div-A rows
(Group No.="BIA1", Roll No.="21", Name="Asha K") and
(blank Group No., Roll No.="22", Name="Ravi M"), the roster walk stores the
Project under the raw key "BIA1" and the Members under ("BIA1","21") and
("BIA1","22"): the normalization block's first branch
(`if group_id.startswith('BI'): pass`) short-circuits the hyphen-insertion
branch for every id starting with "BI", so "BIA1" is never canonicalized to
"BIA-01". -/
theorem c1_roster_keeps_raw_group_key :
    (processDivision emptyDB
        [⟨some "BIA1", some "21", some "Asha K", none, none, none, none, none⟩,
         ⟨none, some "22", some "Ravi M", none, none, none, none, none⟩]
        "A").1.projects.map (fun p => p.group_id) = ["BIA1"] ∧
    (processDivision emptyDB
        [⟨some "BIA1", some "21", some "Asha K", none, none, none, none, none⟩,
         ⟨none, some "22", some "Ravi M", none, none, none, none, none⟩]
        "A").1.members.map (fun m => (m.group_id, m.roll_no)) =
      [("BIA1", "21"), ("BIA1", "22")] ∧
    ("BIA1" : String) ≠ "BIA-01" := by
  refine ⟨rfl, rfl, by decide⟩

/-- Rows whose Group-No. cell is blank leave the walk state untouched while no
group is current: the group branch does not fire and the member branch
requires a current group. -/
theorem stepDiv_blank_group {r : DivRow} (h : cellPresent r.groupNo = false)
    (db : DBState) (d : String) (gs : List String) (mc : Nat) :
    stepDiv ⟨db, d, none, gs, mc⟩ r = ⟨db, d, none, gs, mc⟩ := by
  unfold stepDiv
  rw [h]
  simp

/-- Claim C7.  Carry-forward is strictly forward: a prefix of rows with blank
Group-No. cells contributes nothing — the walk over `pre ++ rest` equals the
walk over `rest` alone, so member rows before the first group header are
dropped and never attached to a later header. -/
theorem c7_carry_forward_strictly_forward (s : DBState) (division : String)
    (pre rest : List DivRow) (h : ∀ r ∈ pre, cellPresent r.groupNo = false) :
    processDivision s (pre ++ rest) division = processDivision s rest division := by
  unfold processDivision
  have aux : pre.foldl stepDiv ⟨s, division, none, [], 0⟩ = ⟨s, division, none, [], 0⟩ := by
    induction pre with
    | nil => rfl
    | cons r rs ih =>
      simp only [List.foldl_cons]
      rw [stepDiv_blank_group (h r (List.mem_cons_self r rs))]
      exact ih (fun r2 hr2 => h r2 (List.mem_cons_of_mem r hr2))
  rw [List.foldl_append, aux]

/-- Witness for `c7_carry_forward_strictly_forward`: an orphan member row
(roll "22", name "Ravi M", blank group) ahead of a normal group header. -/
theorem c7_carry_forward_strictly_forward_witness :
    processDivision emptyDB
        ([⟨none, some "22", some "Ravi M", none, none, none, none, none⟩] ++
          [⟨some "BIA-01", some "21", some "Asha K", none, none, none, none, none⟩])
        "A" =
      processDivision emptyDB
        [⟨some "BIA-01", some "21", some "Asha K", none, none, none, none, none⟩] "A" :=
  c7_carry_forward_strictly_forward emptyDB "A"
    [⟨none, some "22", some "Ravi M", none, none, none, none, none⟩]
    [⟨some "BIA-01", some "21", some "Asha K", none, none, none, none, none⟩]
    (by decide)

/-! ## Schedule Reconciler and full rebuild —
`process_all_data_with_normalization` (data_manager.py lines 448-546) -/

/-- A schedule row: the `Track` cell (already an int when parseable — a
non-numeric cell raises and is skipped row-level), the stringified
`Name of the Panel` cell (`str(row.get(...))`, so a NaN cell reads "nan"),
the `Location` cell, and the stringified non-null values of all cells of the
row (`[str(val) for val in row.values if pd.notnull(val)]`). -/
structure SchedRow where
  track : Option Int
  panelText : String
  location : Option String
  cells : List String
deriving DecidableEq

/-- Python `str.isdigit()` for ASCII content: nonempty and all digits. -/
def pyIsDigit (s : String) : Bool :=
  !s.toList.isEmpty && s.toList.all isDigitChar

/-- Python `split('|')`. -/
def splitBar : List Char → List (List Char)
  | [] => [[]]
  | '|' :: rest => [] :: splitBar rest
  | c :: rest =>
    match splitBar rest with
    | [] => [[c]]
    | grp :: rest2 => (c :: grp) :: rest2

/-- Python `sep.join(l)`. -/
def joinSep (sep : String) : List String → String
  | [] => ""
  | [x] => x
  | x :: rest => x ++ sep ++ joinSep sep rest

/-- The panel-professor parsing block of the schedule walk: newline/comma to
`|`, split, strip, keep tokens longer than 3 characters that are not pure
digits; fall back to three default professors for the track when none
survive. -/
def parsePanelText (panelText : String) (track : Int) : List String :=
  let profs :=
    if panelText ≠ "" && panelText ≠ "nan" then
      ((splitBar (panelText.toList.map (fun c => if c = '\n' || c = ',' then '|' else c))).map
          (fun cs => (stripList cs).asString)).filter
        (fun p => 3 < p.toList.length && !(pyIsDigit p))
    else []
  if profs.isEmpty then
    ["Default Panel " ++ toString track ++ " Prof 1",
     "Default Panel " ++ toString track ++ " Prof 2",
     "Default Panel " ++ toString track ++ " Prof 3"]
  else profs

/-- `INSERT ... ON DUPLICATE KEY UPDATE` into `panel_assignments` (key
`group_id`; `reviewer3` is not listed in the update clause and keeps its old
value on conflict). -/
def upsertPanel (ps : List Panel) (p : Panel) : List Panel :=
  if ps.any (fun q => q.group_id = p.group_id) then
    ps.map (fun q =>
      if q.group_id = p.group_id then
        { q with
          track := p.track
          panel_professors := p.panel_professors
          location := p.location
          guide := p.guide
          reviewer1 := p.reviewer1
          reviewer2 := p.reviewer2 }
      else q)
  else ps ++ [p]

/-- Per-assignment effect: upsert the PanelAssignment row and overwrite the
project's evaluator columns. -/
def applyAssignment (db : DBState) (track : Int) (panelProfs : List String)
    (location : String) (a : Assignment) : DBState :=
  { db with
    panels := upsertPanel db.panels
      ⟨a.group_id, track, joinSep "\n" panelProfs, location, a.guide,
        a.evaluator1, a.evaluator2, none⟩,
    projects := db.projects.map (fun p =>
      if p.group_id = a.group_id then
        { p with
          evaluator1_name := a.evaluator1
          evaluator2_name := a.evaluator2 }
      else p) }

/-- Walk state of the schedule loop: the database, the `all_scheduled_groups`
set (a dedup-insert list) and the `schedule_processed` counter. -/
structure SchedState where
  db : DBState
  scheduled : List String
  processed : Nat
deriving DecidableEq

/-- One iteration of the schedule loop: skip on a missing track; parse the
panel text; default the location to `Room {track}`; extract group ids from
all row cells; skip when none; assign evaluators from the current `projects`
table; then apply each assignment and record its group as scheduled. -/
def stepSched (st : SchedState) (r : SchedRow) : SchedState :=
  match r.track with
  | none => st
  | some track =>
    let panelProfs := parsePanelText r.panelText track
    let location :=
      match r.location with
      | none => "Room " ++ toString track
      | some ls => pyStrip ls
    let gids := extractAllGroupIds r.cells
    if gids.isEmpty then st
    else
      let asgs := assignEvaluatorsFromPanel panelProfs gids st.db.projects
      let st2 := asgs.foldl
        (fun acc a =>
          { acc with
            db := applyAssignment acc.db track panelProfs location a,
            scheduled := if a.group_id ∈ acc.scheduled then acc.scheduled
              else acc.scheduled ++ [a.group_id] })
        st
      { st2 with processed := st2.processed + 1 }

/-- The summary dict returned by `process_all_data_with_normalization`. -/
structure Summary where
  div_a_groups : Nat
  div_b_groups : Nat
  scheduled_groups : Nat
  total_processed : Nat
deriving DecidableEq

/-- `process_all_data_with_normalization`: DELETE all panel_assignments,
members and projects, then rebuild — divisions A and B through the roster
walk, then the schedule walk. -/
def processAll (s : DBState) (divA divB : List DivRow) (sched : List SchedRow) :
    DBState × Summary :=
  let cleared : DBState := { s with panels := [], members := [], projects := [] }
  let resA := processDivision cleared divA "A"
  let resB := processDivision resA.1 divB "B"
  let finalSched := sched.foldl stepSched ⟨resB.1, [], 0⟩
  (finalSched.db,
    ⟨resA.2.1, resB.2.1, finalSched.scheduled.length, resA.2.1 + resB.2.1⟩)

/-- Claim C4.  Full reconciliation is an idempotent full-rebuild: the run
first clears the three stores, then rebuilds them deterministically from the
input rows alone, so running it twice on identical workbook data yields the
identical final snapshot (and identical summary) as running it once. -/
theorem c4_full_rebuild_idempotent (s : DBState) (divA divB : List DivRow)
    (sched : List SchedRow) :
    processAll (processAll s divA divB sched).1 divA divB sched =
      processAll s divA divB sched := rfl

/-! ## Sheet Classifier — `detect_and_normalize_sheets_robust`
(data_manager.py lines 188-230) -/

inductive Role where
  | div_a
  | div_b
  | schedule
deriving DecidableEq

/-- The role the `if`/`elif` chain of the loop body assigns to one sheet name
(`sheet_name.upper().strip()` against the three keyword sets, division A
first, then division B, then schedule). -/
def sheetRoleOf (name : String) : Option Role :=
  let u := stripList (name.toList.map Char.toUpper)
  if anyPattern ["FINAL DIV A", "FINALDIVA", "FINAL_DIV_A", "FINAL-DIV-A",
      "DIV A", "DIVA", "DIV-A", "DIV_A",
      "DIVISION A", "DIVISIONA", "DIVISION-A", "DIVISION_A"] u then
    some Role.div_a
  else if anyPattern ["FINAL DIV B", "FINALDIVB", "FINAL_DIV_B", "FINAL-DIV-B",
      "DIV B", "DIVB", "DIV-B", "DIV_B",
      "DIVISION B", "DIVISIONB", "DIVISION-B", "DIVISION_B"] u then
    some Role.div_b
  else if anyPattern ["SCHEDULE", "SCHED", "PANEL SCHEDULE", "EVALUATION SCHEDULE",
      "PANEL_SCHEDULE", "EVALUATION_SCHEDULE", "PANEL-SCHEDULE"] u then
    some Role.schedule
  else none

/-- The `detected_sheets` dict. -/
structure DetectedSheets where
  div_a : Option String
  div_b : Option String
  schedule : Option String
deriving DecidableEq

/-- One loop iteration: a detected role slot is overwritten with the current
sheet name. -/
def stepDetect (ds : DetectedSheets) (name : String) : DetectedSheets :=
  match sheetRoleOf name with
  | some Role.div_a => { ds with div_a := some name }
  | some Role.div_b => { ds with div_b := some name }
  | some Role.schedule => { ds with schedule := some name }
  | none => ds

/-- `detect_and_normalize_sheets_robust`: fold over the workbook sheet names
in order, starting from the all-`None` dict. -/
def detectSheets (names : List String) : DetectedSheets :=
  names.foldl stepDetect ⟨none, none, none⟩

def roleSlot (ds : DetectedSheets) : Role → Option String
  | Role.div_a => ds.div_a
  | Role.div_b => ds.div_b
  | Role.schedule => ds.schedule

def orElseO {α : Type} (a b : Option α) : Option α :=
  match a with
  | some x => some x
  | none => b

/-- The last sheet name (in workbook order) that the classifier chain maps to
the given role: `find?` over the reversed list. -/
def lastMatching (names : List String) (r : Role) : Option String :=
  names.reverse.find? (fun n => sheetRoleOf n = some r)

theorem orElseO_none {α : Type} (a : Option α) : orElseO a none = a := by
  cases a <;> rfl

theorem orElseO_assoc {α : Type} (a b c : Option α) :
    orElseO (orElseO a b) c = orElseO a (orElseO b c) := by
  cases a <;> rfl

theorem find?_append {α : Type} (p : α → Bool) (l1 l2 : List α) :
    (l1 ++ l2).find? p = orElseO (l1.find? p) (l2.find? p) := by
  induction l1 with
  | nil => rfl
  | cons x xs ih =>
    simp only [List.cons_append, List.find?]
    cases hp : p x
    · simpa [hp] using ih
    · simp [hp, orElseO]

theorem roleSlot_stepDetect (ds : DetectedSheets) (n : String) (r : Role) :
    roleSlot (stepDetect ds n) r =
      orElseO (if sheetRoleOf n = some r then some n else none) (roleSlot ds r) := by
  cases hr : sheetRoleOf n with
  | none => cases r <;> simp [stepDetect, roleSlot, hr, orElseO]
  | some r2 => cases r2 <;> cases r <;> simp [stepDetect, roleSlot, hr, orElseO]

theorem detect_foldl (names : List String) : ∀ (ds : DetectedSheets) (r : Role),
    roleSlot (names.foldl stepDetect ds) r =
      orElseO (lastMatching names r) (roleSlot ds r) := by
  induction names with
  | nil => intro ds r; rfl
  | cons n rest ih =>
    intro ds r
    simp only [List.foldl_cons]
    rw [ih]
    unfold lastMatching
    simp only [List.reverse_cons]
    rw [find?_append, orElseO_assoc]
    congr 1
    rw [roleSlot_stepDetect]
    congr 1
    simp only [List.find?]
    cases hp : decide (sheetRoleOf n = some r)
    · have hne : ¬(sheetRoleOf n = some r) := of_decide_eq_false hp
      simp [hne]
    · have heq : sheetRoleOf n = some r := of_decide_eq_true hp
      simp [heq]

/-- Claim C10.  Each role slot of the sheet classifier holds exactly the last
sheet name in workbook order whose keyword chain assigns it that role: every
later match overwrites the earlier one. -/
theorem c10_sheet_classifier_last_match_wins (names : List String) (r : Role) :
    roleSlot (detectSheets names) r = lastMatching names r := by
  unfold detectSheets
  rw [detect_foldl]
  cases r <;> simp [roleSlot, orElseO_none]

/-! ## Import — `import_excel` (data_manager.py lines 667-748) -/

/-- An uploaded workbook: its sheet names in workbook order, plus readers
modelling `pd.read_excel(xls, sheet_name=..., skiprows=...)` followed by
`normalize_dataframe_columns` — a named sheet read as normalized division or
schedule rows. -/
structure Workbook where
  sheetNames : List String
  divTable : String → List DivRow
  schedTable : String → List SchedRow

/-- The stored admin file slot: the workbook binary plus the sheet-name
metadata sidecar (upload date and original filename carry no pipeline
logic and are omitted). -/
structure StoredFile where
  content : Workbook
  sheetNames : DetectedSheets

/-- The state a request can touch: the single stored-file slot and the three
rebuilt tables. -/
structure ImportState where
  stored : Option StoredFile
  db : DBState

/-- The JSON response of `import_excel`, reduced to its logic-bearing
content: on failure the list of undetected roles, the full raw sheet-name
list and the partial detection map (the payload of the error message); on
success the extraction summary. -/
inductive ImportOutcome where
  | failure (missing : List String) (available : List String) (detected : DetectedSheets)
  | success (summary : Summary)

/-- `[key for key, value in detected_sheets.items() if value is None]`
(dict insertion order: div_a, div_b, schedule). -/
def missingRoles (ds : DetectedSheets) : List String :=
  (if ds.div_a = none then ["div_a"] else [])
    ++ (if ds.div_b = none then ["div_b"] else [])
    ++ (if ds.schedule = none then ["schedule"] else [])

/-- `import_excel`: classify the sheets; when any role is missing, reject
with the missing roles, the available sheet names and the detection map,
before the file is stored and before any processing; otherwise store the
file, read the three sheets and run the full rebuild. -/
def importExcel (st : ImportState) (wb : Workbook) : ImportOutcome × ImportState :=
  let det := detectSheets wb.sheetNames
  let missing := missingRoles det
  if missing.isEmpty then
    let divA := wb.divTable (det.div_a.getD "")
    let divB := wb.divTable (det.div_b.getD "")
    let sc := wb.schedTable (det.schedule.getD "")
    let res := processAll st.db divA divB sc
    (ImportOutcome.success res.2, { stored := some ⟨wb, det⟩, db := res.1 })
  else
    (ImportOutcome.failure missing wb.sheetNames det, st)

/-- Claim C6.  When classification leaves any role undetected, the import is
rejected with an error carrying the missing roles and the full raw sheet-name
list (and the partial detection map), and the state — the stored-file slot and
the projects/members/panel_assignments tables — is returned unchanged: no
partial ingestion occurs. -/
theorem c6_import_rejects_on_missing_roles (st : ImportState) (wb : Workbook)
    (h : missingRoles (detectSheets wb.sheetNames) ≠ []) :
    importExcel st wb =
      (ImportOutcome.failure (missingRoles (detectSheets wb.sheetNames))
        wb.sheetNames (detectSheets wb.sheetNames), st) := by
  unfold importExcel
  have hne : (missingRoles (detectSheets wb.sheetNames)).isEmpty = false := by
    cases hm : missingRoles (detectSheets wb.sheetNames) with
    | nil => exact absurd hm h
    | cons a l => rfl
  simp [hne]

/-- Witness for `c6_import_rejects_on_missing_roles`: a workbook with one
division-A sheet only. -/
theorem c6_import_rejects_on_missing_roles_witness :
    importExcel ⟨none, emptyDB⟩ ⟨["FINAL DIV-A"], fun _ => [], fun _ => []⟩ =
      (ImportOutcome.failure ["div_b", "schedule"] ["FINAL DIV-A"]
        ⟨some "FINAL DIV-A", none, none⟩, ⟨none, emptyDB⟩) :=
  c6_import_rejects_on_missing_roles ⟨none, emptyDB⟩
    ⟨["FINAL DIV-A"], fun _ => [], fun _ => []⟩ (by decide)

/-! ## Row-level failure handling — the `try/except ... continue` loops
(data_manager.py lines 350/439-441 and 470/533-535).  The per-row bodies run
under a `try` whose `except` logs and `continue`s; an environmental failure
(database error, malformed pandas value) is modelled by an oracle `bad`
marking the rows whose body raises, and the loop as a fold that keeps the
prior state and moves on when the body fails. -/

def walkRows {σ α ε : Type} (step : σ → α → Except ε σ) (s : σ) (l : List α) : σ :=
  l.foldl (fun s2 a =>
    match step s2 a with
    | Except.ok s3 => s3
    | Except.error _ => s2) s

/-- The roster row body under its `try`: raises (per the oracle) or performs
`stepDiv`. -/
def stepDivE (bad : DivRow → Bool) (s : DivState) (r : DivRow) : Except Unit DivState :=
  if bad r then Except.error () else Except.ok (stepDiv s r)

/-- The schedule row body under its `try`: raises (per the oracle) or
performs `stepSched`. -/
def stepSchedE (bad : SchedRow → Bool) (s : SchedState) (r : SchedRow) :
    Except Unit SchedState :=
  if bad r then Except.error () else Except.ok (stepSched s r)

/-- When no row raises, the guarded walk is exactly the pure fold used by
`processDivision`. -/
theorem walkRows_no_bad (s : DivState) (l : List DivRow) :
    walkRows (stepDivE (fun _ => false)) s l = l.foldl stepDiv s := by
  induction l generalizing s with
  | nil => rfl
  | cons r rest ih =>
    simp only [walkRows, List.foldl_cons, stepDivE] at *
    exact ih _

/-- Claim C9.  A failure while processing one row of the roster walk or of
the schedule walk only skips that row: the walk never aborts, and its result
on `pre ++ [r] ++ post` with `r` failing equals its result on `pre ++ post` —
the prior state is kept and all remaining rows are still processed. -/
theorem c9_row_failure_skips_only_that_row :
    (∀ (bad : DivRow → Bool) (s : DivState) (pre : List DivRow) (r : DivRow)
      (post : List DivRow), bad r = true →
      walkRows (stepDivE bad) s (pre ++ r :: post) =
        walkRows (stepDivE bad) s (pre ++ post)) ∧
    (∀ (bad : SchedRow → Bool) (s : SchedState) (pre : List SchedRow) (r : SchedRow)
      (post : List SchedRow), bad r = true →
      walkRows (stepSchedE bad) s (pre ++ r :: post) =
        walkRows (stepSchedE bad) s (pre ++ post)) := by
  constructor
  · intro bad s pre r post h
    simp only [walkRows, List.foldl_append, List.foldl_cons]
    rw [stepDivE, if_pos h]
  · intro bad s pre r post h
    simp only [walkRows, List.foldl_append, List.foldl_cons]
    rw [stepSchedE, if_pos h]

/-- Witness for `c9_row_failure_skips_only_that_row` at a concrete roster
input: the middle row's body raises, the first and last rows are processed
as if it were absent. -/
theorem c9_row_failure_skips_only_that_row_witness :
    walkRows (stepDivE (fun r => r.rollNo = some "BAD"))
        (⟨emptyDB, "A", none, [], 0⟩ : DivState)
        ([⟨some "BIA-01", some "21", some "Asha K", none, none, none, none, none⟩] ++
          ⟨none, some "BAD", some "X Y", none, none, none, none, none⟩ ::
          [⟨none, some "22", some "Ravi M", none, none, none, none, none⟩]) =
      walkRows (stepDivE (fun r => r.rollNo = some "BAD"))
        (⟨emptyDB, "A", none, [], 0⟩ : DivState)
        ([⟨some "BIA-01", some "21", some "Asha K", none, none, none, none, none⟩] ++
          [⟨none, some "22", some "Ravi M", none, none, none, none, none⟩]) :=
  c9_row_failure_skips_only_that_row.1 (fun r => r.rollNo = some "BAD")
    ⟨emptyDB, "A", none, [], 0⟩
    [⟨some "BIA-01", some "21", some "Asha K", none, none, none, none, none⟩]
    ⟨none, some "BAD", some "X Y", none, none, none, none, none⟩
    [⟨none, some "22", some "Ravi M", none, none, none, none, none⟩]
    (by decide)

/-! ## Format-Preserving Writer — `update_admin_file_cell` (lines 812-836)
and `update_cell_preserve_format` (lines 1152-1212).  An openpyxl cell is a
value plus style components (font, alignment, border, fill, number format);
what assigning `cell.value` does to the style is the styling library's
business, modelled by an arbitrary function `lib` on styles (the worst case
the snapshot/reapply dance is written for). -/

structure FontS where
  name : String
  size : Nat
  bold : Bool
  italic : Bool
  vertAlign : String
  underline : String
  strike : Bool
  color : String
deriving DecidableEq

structure AlignS where
  horizontal : String
  vertical : String
  textRotation : Nat
  wrapText : Bool
  shrinkToFit : Bool
  indent : Nat
deriving DecidableEq

structure CellStyle where
  font : FontS
  alignment : AlignS
  border : String
  fill : String
  numberFormat : String
deriving DecidableEq

inductive CellValue where
  | blank
  | text (s : String)
  | num (n : Int)
deriving DecidableEq

structure Cell where
  value : CellValue
  style : CellStyle
deriving DecidableEq

def defaultStyle : CellStyle :=
  ⟨⟨"Calibri", 11, false, false, "", "", false, ""⟩, ⟨"", "", 0, false, false, 0⟩,
    "", "", "General"⟩

def emptyCell : Cell := ⟨CellValue.blank, defaultStyle⟩

/-- A worksheet: name plus sparse cells (1-based row/column, as openpyxl). -/
structure Ws where
  name : String
  cells : List (Nat × Nat × Cell)
deriving DecidableEq

def getCell (ws : Ws) (r c : Nat) : Cell :=
  ((ws.cells.find? (fun e => e.1 = r && e.2.1 = c)).map (fun e => e.2.2)).getD emptyCell

/-- `cell.value = v`: the value is written and the style becomes whatever the
library leaves (`lib` applied to the old style). -/
def assignValue (lib : CellStyle → CellStyle) (ws : Ws) (r c : Nat) (v : CellValue) : Ws :=
  { ws with cells := (r, c, ⟨v, lib (getCell ws r c).style⟩) :: ws.cells }

/-- Re-assigning the style components of a cell. -/
def setStyle (ws : Ws) (r c : Nat) (st : CellStyle) : Ws :=
  { ws with cells := (r, c, ⟨(getCell ws r c).value, st⟩) :: ws.cells }

/-- The value cleanup of `update_cell_preserve_format`: `None` to `''`;
strings stripped and `'none'/'null'/'nan'` (lowercased) to `''`; numbers
unchanged. -/
def coerceValue (v : CellValue) : CellValue :=
  match v with
  | CellValue.blank => CellValue.text ""
  | CellValue.num n => CellValue.num n
  | CellValue.text s =>
    let t := pyStrip s
    if lowerStr t = "none" || lowerStr t = "null" || lowerStr t = "nan" then
      CellValue.text ""
    else CellValue.text t

/-- `Font(name=f.name, size=f.size, ...)`: the font rebuilt attribute by
attribute from the snapshot. -/
def rebuildFont (f : FontS) : FontS :=
  ⟨f.name, f.size, f.bold, f.italic, f.vertAlign, f.underline, f.strike, f.color⟩

/-- `Alignment(horizontal=a.horizontal, ...)` rebuilt from the snapshot. -/
def rebuildAlign (a : AlignS) : AlignS :=
  ⟨a.horizontal, a.vertical, a.textRotation, a.wrapText, a.shrinkToFit, a.indent⟩

/-- `update_cell_preserve_format`: guard non-positive positions, snapshot the
style, write the coerced value (library may clobber the style), then reapply
the snapshotted font/alignment/border/fill/number-format. -/
def updateCellPreserveFormat (lib : CellStyle → CellStyle) (ws : Ws) (row col : Nat)
    (v : CellValue) : Ws :=
  if row = 0 || col = 0 then ws
  else
    let original := (getCell ws row col).style
    let ws1 := assignValue lib ws row col (coerceValue v)
    setStyle ws1 row col
      ⟨rebuildFont original.font, rebuildAlign original.alignment,
        original.border, original.fill, original.numberFormat⟩

/-- The worksheet loop of `update_admin_file_cell`: the first sheet whose
name matches case-insensitively receives a plain `ws.cell(row, column,
value=new_value)` — the raw value, no coercion, no style snapshot or
reapplication. -/
def updFirstWs (lib : CellStyle → CellStyle) (target : String) (r c : Nat)
    (v : CellValue) : List Ws → List Ws
  | [] => []
  | w :: rest =>
    if upperStr w.name = upperStr target then assignValue lib w r c v :: rest
    else w :: updFirstWs lib target r c v rest

/-- `update_admin_file_cell`: no stored file means no effect; otherwise write
the raw value at the 1-based position into the matched sheet of the stored
workbook. -/
def updateAdminFileCell (lib : CellStyle → CellStyle) (stored : Option (List Ws))
    (sheetName : String) (row col : Nat) (v : CellValue) : Option (List Ws) :=
  match stored with
  | none => none
  | some wss => some (updFirstWs lib sheetName (row + 1) (col + 1) v wss)

def firstWsCellValue (o : Option (List Ws)) (r c : Nat) : CellValue :=
  match o with
  | some (w :: _) => (getCell w r c).value
  | _ => CellValue.blank

theorem getCell_prepend (nm : String) (tail : List (Nat × Nat × Cell))
    (r c : Nat) (cell : Cell) :
    getCell ⟨nm, (r, c, cell) :: tail⟩ r c = cell := by
  simp [getCell, List.find?]

/-- Claim C8 — counterexample.  The cell-edit path
(`update_cell_general` → `update_admin_file_cell`) writes the raw value with
`ws.cell(row+1, col+1, value=new_value)` and never calls
`update_cell_preserve_format`: editing a cell to the string "none" leaves the
literal "none" in the stored workbook, not the empty string the claimed
coercion would produce (and no style snapshot/reapply happens on this path). -/
theorem c8_counterexample :
    firstWsCellValue
        (updateAdminFileCell (fun st => st)
          (some [⟨"Sheet1", [(1, 1, ⟨CellValue.text "x", defaultStyle⟩)]⟩])
          "sheet1" 0 0 (CellValue.text "none")) 1 1 = CellValue.text "none" ∧
    CellValue.text "none" ≠ CellValue.text "" := by
  refine ⟨rfl, by decide⟩

/-- Claim C8 (amended).  The snapshot/coerce/reapply behavior belongs to
`update_cell_preserve_format`, used by the formatted-export path: for every
library style-clobbering behavior it leaves the cell's
font/alignment/border/fill/number-format unchanged and stores the coerced
value.  The cell-edit path (`update_admin_file_cell`) instead writes the raw
value directly without coercion or style restoration. -/
theorem c8_preserve_format_on_export_path (lib : CellStyle → CellStyle) (ws : Ws)
    (row col : Nat) (v : CellValue) (hr : 1 ≤ row) (hc : 1 ≤ col) :
    (getCell (updateCellPreserveFormat lib ws row col v) row col).style =
      (getCell ws row col).style ∧
    (getCell (updateCellPreserveFormat lib ws row col v) row col).value =
      coerceValue v := by
  unfold updateCellPreserveFormat
  have h0 : (row = 0 || col = 0) = false := by
    simp only [Bool.or_eq_false_iff, decide_eq_false_iff_not]
    omega
  rw [h0]
  simp only [Bool.false_eq_true, if_false, setStyle, assignValue]
  rw [getCell_prepend]
  refine ⟨rfl, ?_⟩
  rw [getCell_prepend]

/-- Witness for `c8_preserve_format_on_export_path`: a styled cell, a library
that resets every style to the default on assignment, and the value
" none " (which coerces to the empty string). -/
theorem c8_preserve_format_on_export_path_witness :
    (getCell (updateCellPreserveFormat (fun _ => defaultStyle)
        ⟨"S", [(1, 1, ⟨CellValue.text "x",
          ⟨⟨"Arial", 12, true, false, "", "single", false, "FF0000"⟩,
            ⟨"center", "top", 0, true, false, 1⟩, "thin", "yellow", "0.00"⟩⟩)]⟩
        1 1 (CellValue.text " none ")) 1 1).style =
      (getCell ⟨"S", [(1, 1, ⟨CellValue.text "x",
          ⟨⟨"Arial", 12, true, false, "", "single", false, "FF0000"⟩,
            ⟨"center", "top", 0, true, false, 1⟩, "thin", "yellow", "0.00"⟩⟩)]⟩ 1 1).style ∧
    (getCell (updateCellPreserveFormat (fun _ => defaultStyle)
        ⟨"S", [(1, 1, ⟨CellValue.text "x",
          ⟨⟨"Arial", 12, true, false, "", "single", false, "FF0000"⟩,
            ⟨"center", "top", 0, true, false, 1⟩, "thin", "yellow", "0.00"⟩⟩)]⟩
        1 1 (CellValue.text " none ")) 1 1).value =
      coerceValue (CellValue.text " none ") :=
  c8_preserve_format_on_export_path (fun _ => defaultStyle)
    ⟨"S", [(1, 1, ⟨CellValue.text "x",
      ⟨⟨"Arial", 12, true, false, "", "single", false, "FF0000"⟩,
        ⟨"center", "top", 0, true, false, 1⟩, "thin", "yellow", "0.00"⟩⟩)]⟩
    1 1 (CellValue.text " none ") (by decide) (by decide)
